import Mathlib

/-!
Verification of the B200 reservation app (src/app.py).

The app stores reservations as rows of a tabular store (a Google sheet)
under the header COLUMNS.  We embed rows as association lists from column
names to cells, where a cell is a string, a number, or NaN (the pandas
missing value).  Dates and timestamps travel as strings in the formats
"%Y-%m-%d" and "%Y-%m-%d %H:%M:%S"; we model the pandas parsing and
formatting of those fixed ISO shapes at character level.
-/

namespace B200

/-- One character of a decimal digit: the character with code 48 + d. -/
def digitChar (d : ℕ) : Char := Char.ofNat (48 + d)

/-- Decimal-digit test on a character, code between 48 and 57. -/
def isDigitChar (c : Char) : Bool := 48 ≤ c.toNat && c.toNat ≤ 57

/-- Numeric value of a digit character. -/
def charToDigit (c : Char) : ℕ := c.toNat - 48

/-- Big-endian decimal digit characters of a natural number
(empty for 0, as in the underlying digit expansion). -/
def natToDigits (n : ℕ) : List Char := ((Nat.digits 10 n).reverse).map digitChar

/-- Digits of n left-padded with character zeros to width w,
modelling %0wd formatting. -/
def padDigits (w n : ℕ) : List Char :=
  List.replicate (w - (natToDigits n).length) '0' ++ natToDigits n

/-- Decimal value accumulated left to right over a character list. -/
def valFold (a : ℕ) (cs : List Char) : ℕ :=
  cs.foldl (fun b c => 10 * b + charToDigit c) a

/-- Parse a nonempty all-digit character list as a natural number. -/
def parseNatChars (cs : List Char) : Option ℕ :=
  if cs.isEmpty then none
  else if cs.all isDigitChar then some (valFold 0 cs) else none

theorem digitChar_round (d : ℕ) (hd : d < 10) :
    charToDigit (digitChar d) = d ∧ isDigitChar (digitChar d) = true := by
  interval_cases d <;> exact ⟨by decide, by decide⟩

theorem mem_natToDigits_isDigit {n : ℕ} {c : Char} (hc : c ∈ natToDigits n) :
    isDigitChar c = true := by
  rcases List.mem_map.mp hc with ⟨d, hd, rfl⟩
  exact (digitChar_round d (Nat.digits_lt_base (by norm_num)
    (List.mem_reverse.mp hd))).2

theorem mem_padDigits_isDigit {w n : ℕ} {c : Char} (hc : c ∈ padDigits w n) :
    isDigitChar c = true := by
  rcases List.mem_append.mp hc with h | h
  · rw [List.eq_of_mem_replicate h]; decide
  · exact mem_natToDigits_isDigit h

theorem natToDigits_length_le {w n : ℕ} (h : n < 10 ^ w) :
    (natToDigits n).length ≤ w := by
  by_cases hn : n = 0
  · subst hn; simp [natToDigits]
  · have hlen := Nat.base_pow_length_digits_le 10 n (by norm_num) hn
    simp only [natToDigits, List.length_map, List.length_reverse]
    by_contra hw
    push_neg at hw
    have h1 : 10 ^ (w + 1) ≤ 10 ^ (Nat.digits 10 n).length :=
      Nat.pow_le_pow_right (by norm_num) hw
    have h2 : (10 : ℕ) * 10 ^ w ≤ 10 * n := by
      calc (10 : ℕ) * 10 ^ w = 10 ^ (w + 1) := by ring
        _ ≤ 10 ^ (Nat.digits 10 n).length := h1
        _ ≤ 10 * n := hlen
    omega

theorem padDigits_length {w n : ℕ} (h : n < 10 ^ w) :
    (padDigits w n).length = w := by
  have := natToDigits_length_le h
  simp only [padDigits, List.length_append, List.length_replicate]
  omega

theorem valFold_append (a : ℕ) (l₁ l₂ : List Char) :
    valFold a (l₁ ++ l₂) = valFold (valFold a l₁) l₂ :=
  List.foldl_append _ _ _ _

theorem valFold_replicate_zero (k : ℕ) : ∀ a, valFold a (List.replicate k '0') = a * 10 ^ k := by
  induction k with
  | zero => intro a; simp [valFold]
  | succ k ih =>
    intro a
    have : List.replicate (k + 1) '0' = '0' :: List.replicate k '0' := rfl
    rw [this]
    show valFold (10 * a + charToDigit '0') (List.replicate k '0') = a * 10 ^ (k + 1)
    rw [ih]
    have : charToDigit '0' = 0 := by decide
    rw [this]; ring

theorem valFold_digitList (ds : List ℕ) (hds : ∀ d ∈ ds, d < 10) :
    ∀ a, valFold a ((ds.reverse).map digitChar) = a * 10 ^ ds.length + Nat.ofDigits 10 ds := by
  induction ds with
  | nil => intro a; simp [valFold, Nat.ofDigits_nil]
  | cons d t ih =>
    intro a
    have hrev : ((d :: t).reverse).map digitChar =
        ((t.reverse).map digitChar) ++ [digitChar d] := by
      simp
    rw [hrev, valFold_append, ih (fun x hx => hds x (List.mem_cons_of_mem d hx))]
    show 10 * (a * 10 ^ t.length + Nat.ofDigits 10 t) + charToDigit (digitChar d) =
      a * 10 ^ (d :: t).length + Nat.ofDigits 10 (d :: t)
    rw [(digitChar_round d (hds d (List.mem_cons_self d t))).1,
      Nat.ofDigits_cons, List.length_cons]
    ring

theorem valFold_natToDigits (n : ℕ) (a : ℕ) :
    valFold a (natToDigits n) = a * 10 ^ (natToDigits n).length + n := by
  have hv := valFold_digitList (Nat.digits 10 n)
    (fun d hd => Nat.digits_lt_base (by norm_num) hd) a
  rw [Nat.ofDigits_digits] at hv
  simp only [natToDigits, List.length_map, List.length_reverse]
  simpa [natToDigits] using hv

theorem valFold_padDigits {w n : ℕ} (_h : n < 10 ^ w) :
    valFold 0 (padDigits w n) = n := by
  rw [padDigits, valFold_append, valFold_replicate_zero, valFold_natToDigits]
  ring

theorem parseNatChars_padDigits {w n : ℕ} (hw : 0 < w) (h : n < 10 ^ w) :
    parseNatChars (padDigits w n) = some n := by
  have hlen : (padDigits w n).length = w := padDigits_length h
  have hne : (padDigits w n).isEmpty = false := by
    cases hpd : padDigits w n with
    | nil => rw [hpd] at hlen; simp at hlen; omega
    | cons c cs => rfl
  have hall : (padDigits w n).all isDigitChar = true :=
    List.all_eq_true.mpr fun c hc => mem_padDigits_isDigit hc
  rw [parseNatChars, hne, if_neg (by simp), hall, if_pos rfl, valFold_padDigits h]

theorem valFold_lt (cs : List Char) (hcs : ∀ c ∈ cs, isDigitChar c = true) :
    ∀ a, valFold a cs < (a + 1) * 10 ^ cs.length := by
  induction cs with
  | nil => intro a; simp [valFold]
  | cons c t ih =>
    intro a
    have hd : charToDigit c < 10 := by
      have := hcs c (List.mem_cons_self c t)
      simp only [isDigitChar, Bool.and_eq_true, decide_eq_true_eq] at this
      unfold charToDigit
      omega
    have step : valFold a (c :: t) = valFold (10 * a + charToDigit c) t := rfl
    rw [step]
    calc valFold (10 * a + charToDigit c) t
        < (10 * a + charToDigit c + 1) * 10 ^ t.length :=
          ih (fun x hx => hcs x (List.mem_cons_of_mem c hx)) _
      _ ≤ (10 * a + 10) * 10 ^ t.length := by
          apply Nat.mul_le_mul_right
          omega
      _ = (a + 1) * 10 ^ (c :: t).length := by
          rw [List.length_cons]; ring

theorem parseNatChars_some {cs : List Char} {n : ℕ} (h : parseNatChars cs = some n) :
    n < 10 ^ cs.length := by
  rw [parseNatChars] at h
  by_cases h1 : cs.isEmpty
  · rw [if_pos h1] at h; exact absurd h (by simp)
  · rw [if_neg h1] at h
    by_cases h2 : cs.all isDigitChar
    · rw [if_pos h2] at h
      have := valFold_lt cs (List.all_eq_true.mp h2) 0
      simp only [Option.some.injEq] at h
      omega
    · rw [if_neg h2] at h; exact absurd h (by simp)

/-! ## Calendar dates and timestamps

The app stores a date as a "%Y-%m-%d" string (pandas strftime) and a
reservation timestamp as "%Y-%m-%d %H:%M:%S".  We model those strings
exactly, with pandas to_datetime restricted to these ISO shapes. -/

/-- A calendar date, year-month-day. -/
structure CivilDate where
  year : ℕ
  month : ℕ
  day : ℕ
  deriving DecidableEq, Repr

/-- Gregorian leap-year rule. -/
def isLeap (y : ℕ) : Bool := (y % 4 = 0 && y % 100 ≠ 0) || y % 400 = 0

/-- Number of days in a month of a given year. -/
def daysInMonth (y m : ℕ) : ℕ :=
  if m = 2 then (if isLeap y then 29 else 28)
  else if m = 4 || m = 6 || m = 9 || m = 11 then 30
  else 31

/-- A date the store can round-trip: in-range components, four-digit year. -/
def ValidDate (d : CivilDate) : Prop :=
  1 ≤ d.month ∧ d.month ≤ 12 ∧ 1 ≤ d.day ∧ d.day ≤ daysInMonth d.year d.month ∧
    d.year < 10000

instance (d : CivilDate) : Decidable (ValidDate d) := by
  unfold ValidDate; infer_instance

/-- Numeric key giving the chronological order of valid dates. -/
def dateKey (d : CivilDate) : ℕ := (d.year * 100 + d.month) * 100 + d.day

/-- The "%Y-%m-%d" rendering of a date (pandas strftime). -/
def formatDate (d : CivilDate) : String :=
  String.mk (padDigits 4 d.year ++ '-' ::
    (padDigits 2 d.month ++ '-' :: padDigits 2 d.day))

/-- Parse a "%Y-%m-%d" string to a date; none when the shape or the
calendar bounds fail (pandas to_datetime with coercion to NaT). -/
def parseDate (s : String) : Option CivilDate :=
  let cs := s.data
  match parseNatChars (cs.take 4), parseNatChars ((cs.drop 5).take 2),
      parseNatChars (cs.drop 8) with
  | some y, some m, some d =>
    if cs.length = 10 ∧ cs.get? 4 = some '-' ∧ cs.get? 7 = some '-' ∧
        1 ≤ m ∧ m ≤ 12 ∧ 1 ≤ d ∧ d ≤ daysInMonth y m then
      some ⟨y, m, d⟩
    else none
  | _, _, _ => none

/-- A timestamp, date plus time of day. -/
structure DateTime where
  date : CivilDate
  hour : ℕ
  minute : ℕ
  second : ℕ
  deriving DecidableEq, Repr

/-- A timestamp the store can round-trip. -/
def ValidDateTime (t : DateTime) : Prop :=
  ValidDate t.date ∧ t.hour ≤ 23 ∧ t.minute ≤ 59 ∧ t.second ≤ 59

instance (t : DateTime) : Decidable (ValidDateTime t) := by
  unfold ValidDateTime; infer_instance

/-- The "%Y-%m-%d %H:%M:%S" rendering of a timestamp. -/
def formatDateTime (t : DateTime) : String :=
  String.mk ((formatDate t.date).data ++ ' ' ::
    (padDigits 2 t.hour ++ ':' :: (padDigits 2 t.minute ++ ':' :: padDigits 2 t.second)))

/-- Parse a "%Y-%m-%d %H:%M:%S" string to a timestamp; none on any
shape or range failure. -/
def parseDateTime (s : String) : Option DateTime :=
  let cs := s.data
  match parseDate (String.mk (cs.take 10)), parseNatChars ((cs.drop 11).take 2),
      parseNatChars ((cs.drop 14).take 2), parseNatChars (cs.drop 17) with
  | some d, some hh, some mm, some ss =>
    if cs.length = 19 ∧ cs.get? 10 = some ' ' ∧ cs.get? 13 = some ':' ∧
        cs.get? 16 = some ':' ∧ hh ≤ 23 ∧ mm ≤ 59 ∧ ss ≤ 59 then
      some ⟨d, hh, mm, ss⟩
    else none
  | _, _, _, _ => none

theorem daysInMonth_le (y m : ℕ) : daysInMonth y m ≤ 31 := by
  unfold daysInMonth
  split
  · split <;> omega
  · split <;> omega

theorem get?_of_drop {cs t : List Char} {c : Char} {n : ℕ}
    (h : cs.drop n = c :: t) : cs.get? n = some c := by
  have h0 : (cs.drop n).get? 0 = some c := by rw [h]; rfl
  have h1 : (cs.drop n).get? 0 = cs.get? (n + 0) := List.get?_drop cs n 0
  rw [h1] at h0
  simpa using h0

theorem parseDate_formatDate {d : CivilDate} (hd : ValidDate d) :
    parseDate (formatDate d) = some d := by
  obtain ⟨hm1, hm2, hd1, hd2, hy⟩ := hd
  have hyw : d.year < 10 ^ 4 := by norm_num; omega
  have hmw : d.month < 10 ^ 2 := by
    have := Nat.lt_of_le_of_lt hm2 (by norm_num : (12 : ℕ) < 100)
    simpa using this
  have hdw : d.day < 10 ^ 2 := by
    have h31 := daysInMonth_le d.year d.month
    have : d.day < 100 := by omega
    simpa using this
  have ly : (padDigits 4 d.year).length = 4 := padDigits_length hyw
  have lm : (padDigits 2 d.month).length = 2 := padDigits_length hmw
  have ld : (padDigits 2 d.day).length = 2 := padDigits_length hdw
  set p4 := padDigits 4 d.year with hp4
  set pm := padDigits 2 d.month with hpm
  set pd := padDigits 2 d.day with hpd
  have hcs : (formatDate d).data = p4 ++ '-' :: (pm ++ '-' :: pd) := rfl
  have hdrop4 : ((formatDate d).data).drop 4 = '-' :: (pm ++ '-' :: pd) := by
    rw [hcs, ← ly, List.drop_left]
  have hdrop5 : ((formatDate d).data).drop 5 = pm ++ '-' :: pd := by
    have : (((formatDate d).data).drop 4).drop 1 = ((formatDate d).data).drop 5 :=
      List.drop_drop 1 4 _
    rw [← this, hdrop4]
    rfl
  have hdrop7 : ((formatDate d).data).drop 7 = '-' :: pd := by
    have h1 : (((formatDate d).data).drop 5).drop 2 = ((formatDate d).data).drop 7 :=
      List.drop_drop 2 5 _
    rw [← h1, hdrop5, ← lm, List.drop_left]
  have hdrop8 : ((formatDate d).data).drop 8 = pd := by
    have h1 : (((formatDate d).data).drop 7).drop 1 = ((formatDate d).data).drop 8 :=
      List.drop_drop 1 7 _
    rw [← h1, hdrop7]
    rfl
  have htake4 : ((formatDate d).data).take 4 = p4 := by
    rw [hcs, ← ly, List.take_left]
  have htake2 : (((formatDate d).data).drop 5).take 2 = pm := by
    rw [hdrop5, ← lm, List.take_left]
  have hlen : ((formatDate d).data).length = 10 := by
    rw [hcs]
    simp only [List.length_append, List.length_cons]
    omega
  have hg4 : ((formatDate d).data).get? 4 = some '-' := get?_of_drop hdrop4
  have hg7 : ((formatDate d).data).get? 7 = some '-' := get?_of_drop hdrop7
  have py : parseNatChars p4 = some d.year := parseNatChars_padDigits (by norm_num) hyw
  have pmm : parseNatChars pm = some d.month := parseNatChars_padDigits (by norm_num) hmw
  have pdd : parseNatChars pd = some d.day := parseNatChars_padDigits (by norm_num) hdw
  rw [parseDate]
  simp only [htake4, htake2, hdrop8, py, pmm, pdd]
  rw [if_pos ⟨hlen, hg4, hg7, hm1, hm2, hd1, hd2⟩]

theorem parseDate_valid {s : String} {d : CivilDate} (h : parseDate s = some d) :
    ValidDate d := by
  rw [parseDate] at h
  rcases hy : parseNatChars (s.data.take 4) with _ | y
  case none => rw [hy] at h; simp at h
  rcases hm : parseNatChars ((s.data.drop 5).take 2) with _ | m
  case none => rw [hy, hm] at h; simp at h
  rcases hdd : parseNatChars (s.data.drop 8) with _ | dd
  case none => rw [hy, hm, hdd] at h; simp at h
  rw [hy, hm, hdd] at h
  simp only at h
  split at h
  case isTrue hc =>
    obtain ⟨hlen, _, _, h1, h2, h3, h4⟩ := hc
    have hyb : y < 10 ^ (s.data.take 4).length := parseNatChars_some hy
    have hlt : (s.data.take 4).length = 4 := by
      simp [List.length_take, hlen]
    rw [hlt] at hyb
    cases h
    refine ⟨h1, h2, h3, h4, ?_⟩
    show y < 10000
    norm_num at hyb
    omega
  case isFalse => exact absurd h (by simp)

theorem formatDate_length {d : CivilDate} (hd : ValidDate d) :
    ((formatDate d).data).length = 10 := by
  obtain ⟨hm1, hm2, hd1, hd2, hy⟩ := hd
  have hyw : d.year < 10 ^ 4 := by norm_num; omega
  have hmw : d.month < 10 ^ 2 := by
    have := Nat.lt_of_le_of_lt hm2 (by norm_num : (12 : ℕ) < 100)
    simpa using this
  have hdw : d.day < 10 ^ 2 := by
    have h31 := daysInMonth_le d.year d.month
    have : d.day < 100 := by omega
    simpa using this
  show (padDigits 4 d.year ++ '-' ::
    (padDigits 2 d.month ++ '-' :: padDigits 2 d.day)).length = 10
  simp only [List.length_append, List.length_cons,
    padDigits_length hyw, padDigits_length hmw, padDigits_length hdw]

theorem parseDateTime_formatDateTime {t : DateTime} (ht : ValidDateTime t) :
    parseDateTime (formatDateTime t) = some t := by
  obtain ⟨hd, hh, hm, hs⟩ := ht
  have hhw : t.hour < 10 ^ 2 := by norm_num; omega
  have hmw : t.minute < 10 ^ 2 := by norm_num; omega
  have hsw : t.second < 10 ^ 2 := by norm_num; omega
  have lh : (padDigits 2 t.hour).length = 2 := padDigits_length hhw
  have lm : (padDigits 2 t.minute).length = 2 := padDigits_length hmw
  have ls : (padDigits 2 t.second).length = 2 := padDigits_length hsw
  have l10 : ((formatDate t.date).data).length = 10 := formatDate_length hd
  set fd := (formatDate t.date).data with hfd
  set ph := padDigits 2 t.hour with hph
  set pm := padDigits 2 t.minute with hpm
  set ps := padDigits 2 t.second with hps
  have hcs : (formatDateTime t).data = fd ++ ' ' :: (ph ++ ':' :: (pm ++ ':' :: ps)) := rfl
  have htake10 : ((formatDateTime t).data).take 10 = fd := by
    rw [hcs, ← l10, List.take_left]
  have hdrop10 : ((formatDateTime t).data).drop 10 = ' ' :: (ph ++ ':' :: (pm ++ ':' :: ps)) := by
    rw [hcs, ← l10, List.drop_left]
  have hdrop11 : ((formatDateTime t).data).drop 11 = ph ++ ':' :: (pm ++ ':' :: ps) := by
    have h1 : (((formatDateTime t).data).drop 10).drop 1 = ((formatDateTime t).data).drop 11 :=
      List.drop_drop 1 10 _
    rw [← h1, hdrop10]
    rfl
  have hdrop13 : ((formatDateTime t).data).drop 13 = ':' :: (pm ++ ':' :: ps) := by
    have h1 : (((formatDateTime t).data).drop 11).drop 2 = ((formatDateTime t).data).drop 13 :=
      List.drop_drop 2 11 _
    rw [← h1, hdrop11, ← lh, List.drop_left]
  have hdrop14 : ((formatDateTime t).data).drop 14 = pm ++ ':' :: ps := by
    have h1 : (((formatDateTime t).data).drop 13).drop 1 = ((formatDateTime t).data).drop 14 :=
      List.drop_drop 1 13 _
    rw [← h1, hdrop13]
    rfl
  have hdrop16 : ((formatDateTime t).data).drop 16 = ':' :: ps := by
    have h1 : (((formatDateTime t).data).drop 14).drop 2 = ((formatDateTime t).data).drop 16 :=
      List.drop_drop 2 14 _
    rw [← h1, hdrop14, ← lm, List.drop_left]
  have hdrop17 : ((formatDateTime t).data).drop 17 = ps := by
    have h1 : (((formatDateTime t).data).drop 16).drop 1 = ((formatDateTime t).data).drop 17 :=
      List.drop_drop 1 16 _
    rw [← h1, hdrop16]
    rfl
  have htakeh : (((formatDateTime t).data).drop 11).take 2 = ph := by
    rw [hdrop11, ← lh, List.take_left]
  have htakem : (((formatDateTime t).data).drop 14).take 2 = pm := by
    rw [hdrop14, ← lm, List.take_left]
  have hlen : ((formatDateTime t).data).length = 19 := by
    rw [hcs]
    simp only [List.length_append, List.length_cons, lh, lm, ls]
    omega
  have hg10 : ((formatDateTime t).data).get? 10 = some ' ' := get?_of_drop hdrop10
  have hg13 : ((formatDateTime t).data).get? 13 = some ':' := get?_of_drop hdrop13
  have hg16 : ((formatDateTime t).data).get? 16 = some ':' := get?_of_drop hdrop16
  have hmkfd : String.mk fd = formatDate t.date := rfl
  have pdate : parseDate (String.mk (((formatDateTime t).data).take 10)) = some t.date := by
    rw [htake10, hmkfd]
    exact parseDate_formatDate hd
  have phh : parseNatChars ph = some t.hour := parseNatChars_padDigits (by norm_num) hhw
  have pmm : parseNatChars pm = some t.minute := parseNatChars_padDigits (by norm_num) hmw
  have pss : parseNatChars ps = some t.second := parseNatChars_padDigits (by norm_num) hsw
  rw [parseDateTime]
  simp only [pdate, htakeh, htakem, hdrop17, phh, pmm, pss]
  rw [if_pos ⟨hlen, hg10, hg13, hg16, hh, hm, hs⟩]

theorem parseDateTime_valid {s : String} {t : DateTime} (h : parseDateTime s = some t) :
    ValidDateTime t := by
  rw [parseDateTime] at h
  rcases hdp : parseDate (String.mk (s.data.take 10)) with _ | d
  case none => rw [hdp] at h; simp at h
  rcases hhp : parseNatChars ((s.data.drop 11).take 2) with _ | hh
  case none => rw [hdp, hhp] at h; simp at h
  rcases hmp : parseNatChars ((s.data.drop 14).take 2) with _ | mm
  case none => rw [hdp, hhp, hmp] at h; simp at h
  rcases hsp : parseNatChars (s.data.drop 17) with _ | ss
  case none => rw [hdp, hhp, hmp, hsp] at h; simp at h
  rw [hdp, hhp, hmp, hsp] at h
  simp only at h
  split at h
  case isTrue hc =>
    obtain ⟨_, _, _, _, h1, h2, h3⟩ := hc
    cases h
    exact ⟨parseDate_valid hdp, h1, h2, h3⟩
  case isFalse => exact absurd h (by simp)

/-! ## Row store data model

get_all_records returns rows as mappings from the header names to cell
values; a pandas cell holds a string, a number, or the missing value NaN.
We embed a row as an association list from column names to cells. -/

/-- One cell of the tabular store. -/
inductive Cell where
  | str (s : String)
  | num (n : ℤ)
  | nan
  deriving DecidableEq, Repr

/-- A stored row: column name to cell, as produced by get_all_records. -/
abbrev RawRow : Type := List (String × Cell)

/-- The sheet header, from src/app.py line 13. -/
def COLUMNS : List String :=
  ["name", "email", "phone", "date", "tickets", "start_time", "end_time",
    "reservation_time"]

/-- Column access with the missing-column default: _normalize_df inserts
the empty string for any expected column absent from the frame. -/
def getCol (row : RawRow) (c : String) : Cell :=
  match row.find? (fun p => p.1 == c) with
  | some p => p.2
  | none => Cell.str ""

/-- Signed-integer parsing of a character list, modelling
pd.to_numeric with coercion, restricted to integer literals. -/
def parseIntChars (cs : List Char) : Option ℤ :=
  match cs with
  | '-' :: rest => (parseNatChars rest).map (fun n => -(n : ℤ))
  | '+' :: rest => (parseNatChars rest).map (fun n => (n : ℤ))
  | _ => (parseNatChars cs).map (fun n => (n : ℤ))

/-- pd.to_numeric(cell, errors coerced to NaN): numbers pass through,
integer-literal strings parse, everything else is missing. -/
def toNumericInt (c : Cell) : Option ℤ :=
  match c with
  | Cell.str s => parseIntChars s.data
  | Cell.num n => some n
  | Cell.nan => none

/-- pd.to_datetime on a cell, coercing failures to NaT (none). -/
def parseDateCell (c : Cell) : Option CivilDate :=
  match c with
  | Cell.str s => parseDate s
  | _ => none

/-- pd.to_datetime on a timestamp cell, coercing failures to NaT. -/
def parseDateTimeCell (c : Cell) : Option DateTime :=
  match c with
  | Cell.str s => parseDateTime s
  | _ => none

/-- The tickets coercion of _normalize_df line 56:
to_numeric with coercion, fillna(0), astype(int). -/
def normCellTickets (c : Cell) : Cell := Cell.num ((toNumericInt c).getD 0)

/-- The date coercion of _normalize_df line 57: to_datetime with
coercion then strftime "%Y-%m-%d"; an unparsable date becomes NaN. -/
def normCellDate (c : Cell) : Cell :=
  match parseDateCell c with
  | some d => Cell.str (formatDate d)
  | none => Cell.nan

/-- The reservation_time coercion of _normalize_df lines 59-60:
parse, fill missing with the current wall-clock time, format. -/
def normCellRT (now : DateTime) (c : Cell) : Cell :=
  Cell.str (formatDateTime ((parseDateTimeCell c).getD now))

/-- _normalize_df on one row: missing columns filled with "", tickets,
date and reservation_time coerced, and exactly the COLUMNS kept, in
header order (the final df[COLUMNS] selection). -/
def normalizeRow (now : DateTime) (row : RawRow) : RawRow :=
  [("name", getCol row "name"),
   ("email", getCol row "email"),
   ("phone", getCol row "phone"),
   ("date", normCellDate (getCol row "date")),
   ("tickets", normCellTickets (getCol row "tickets")),
   ("start_time", getCol row "start_time"),
   ("end_time", getCol row "end_time"),
   ("reservation_time", normCellRT now (getCol row "reservation_time"))]

/-- _normalize_df (src/app.py lines 48-61).  The wall clock read by
pd.Timestamp.now() is passed explicitly as now. -/
def normalize (now : DateTime) (rows : List RawRow) : List RawRow :=
  rows.map (normalizeRow now)

/-! ## Availability classifier (color_for_count, lines 92-98) -/

/-- Calendar color of an ample day. -/
def AMPLE : String := "#c8e6c9"

/-- Calendar color of a nearly full day. -/
def NEARLY_FULL : String := "#ffe6b3"

/-- Calendar color of an unavailable day. -/
def UNAVAILABLE : String := "#ffcccc"

/-- Configured low threshold (src/app.py line 22). -/
def LOW_MAX : ℤ := 22

/-- Configured mid threshold (src/app.py line 23). -/
def MID_MAX : ℤ := 32

/-- color_for_count (src/app.py lines 92-98), with the two module-level
thresholds passed explicitly as configuration. -/
def color_for_count (lowMax midMax : ℤ) (n : ℤ) : String :=
  if n ≤ lowMax then AMPLE
  else if n ≤ midMax then NEARLY_FULL
  else UNAVAILABLE

/-! ## Phone normalization (normalize_phone, lines 100-101) -/

/-- Python str() of a cell value. -/
def cellStr (c : Cell) : String :=
  match c with
  | Cell.str s => s
  | Cell.num n => toString n
  | Cell.nan => "nan"

/-- normalize_phone: keep only the decimal digits of str(s). -/
def normalize_phone (c : Cell) : String :=
  String.mk ((cellStr c).data.filter isDigitChar)

/-! ## Aggregator (get_counts_by_date, lines 84-90) -/

/-- The coerced ticket count of a row, as read by the aggregation code
(to_numeric with coercion, fillna(0), astype(int)). -/
def ticketsOf (r : RawRow) : ℤ := (toNumericInt (getCol r "tickets")).getD 0

/-- The parsed date of a row (to_datetime with coercion). -/
def dateOf (r : RawRow) : Option CivilDate := parseDateCell (getCol r "date")

/-- Chronological order on dates via their numeric key. -/
def cdLE (a b : CivilDate) : Prop := dateKey a ≤ dateKey b

instance : DecidableRel cdLE := fun a b => by unfold cdLE; infer_instance

instance : IsTotal CivilDate cdLE := ⟨fun a b => Nat.le_total _ _⟩

instance : IsTrans CivilDate cdLE := ⟨fun _ _ _ hab hbc => Nat.le_trans hab hbc⟩

/-- get_counts_by_date (src/app.py lines 84-90): coerce tickets and
dates, then group by date and sum tickets per date.  Rows whose date
fails to parse carry a NaT key and are dropped by the groupby; the
groupby sorts the date keys ascending. -/
def get_counts_by_date (rows : List RawRow) : List (CivilDate × ℤ) :=
  if rows.isEmpty then []
  else
    let pairs := rows.filterMap (fun r => (dateOf r).map (fun d => (d, ticketsOf r)))
    let keys := List.insertionSort cdLE ((pairs.map Prod.fst).dedup)
    keys.map (fun d => (d, ((pairs.filter (fun p => decide (p.1 = d))).map Prod.snd).sum))

/-! ## Reservation submission (page_booking, lines 174-236)

The date widget only yields ranges inside the open-booking window,
2025-10-01 through 2025-10-29 (min_selectable_date and max_date,
lines 178-179), and the ticket widget only yields counts of at least 1
(min_value, line 204); those widget bounds are modelled as part of the
submission precondition.  Since the whole window lies inside October
2025, the per-day expansion start_date + timedelta(days=i) stays inside
the month and a date of the range is day number startDay + i of
October 2025.  Times of day are minutes since midnight. -/

/-- The submission failure of page_booking: the warning branch of
line 236, abstracted by the spec as ValidationError. -/
inductive ValidationError where
  | invalid
  deriving DecidableEq, Repr

/-- One submitted form: party fields, day-of-October date range,
ticket count, minute-of-day time window, deposit checkbox. -/
structure BookingForm where
  name : String
  email : String
  phone : String
  startDay : ℕ
  endDay : ℕ
  tickets : ℤ
  startTime : ℕ
  endTime : ℕ
  deposit : Bool
  deriving DecidableEq, Repr

/-- The submission precondition: the explicit guard of line 214
(nonempty name, email, phone; deposit confirmed; end after start)
together with the widget-enforced bounds (tickets at least 1; range
ordered and inside the 2025-10-01..2025-10-29 window). -/
def FormOK (f : BookingForm) : Prop :=
  f.name ≠ "" ∧ f.email ≠ "" ∧ f.phone ≠ "" ∧ f.deposit = true ∧
    f.startTime < f.endTime ∧ 1 ≤ f.tickets ∧
    1 ≤ f.startDay ∧ f.startDay ≤ f.endDay ∧ f.endDay ≤ 29

instance (f : BookingForm) : Decidable (FormOK f) := by
  unfold FormOK; infer_instance

/-- strftime "%H:%M" of a minute-of-day value. -/
def formatHM (t : ℕ) : String :=
  String.mk (padDigits 2 (t / 60) ++ ':' :: padDigits 2 (t % 60))

/-- The row save_reservation appends for one day of the range: the
eight values of lines 71-80 under the header COLUMNS. -/
def submitRow (f : BookingForm) (now : DateTime) (day : ℕ) : RawRow :=
  [("name", Cell.str f.name),
   ("email", Cell.str f.email),
   ("phone", Cell.str f.phone),
   ("date", Cell.str (formatDate ⟨2025, 10, day⟩)),
   ("tickets", Cell.num f.tickets),
   ("start_time", Cell.str (formatHM f.startTime)),
   ("end_time", Cell.str (formatHM f.endTime)),
   ("reservation_time", Cell.str (formatDateTime now))]

/-- The rows generated by the loop of lines 220-231: one per day i of
the inclusive range, i from 0 to endDay - startDay. -/
def submitRows (f : BookingForm) (now : DateTime) : List RawRow :=
  (List.range (f.endDay - f.startDay + 1)).map (fun i => submitRow f now (f.startDay + i))

/-- save_reservation (lines 69-81): one append_row call. -/
def save_reservation (store : List RawRow) (row : RawRow) : List RawRow :=
  store ++ [row]

/-- page_booking submission (lines 213-236): validate, then append one
row per day of the range; on validation failure nothing is appended.
Returns the submission outcome and the resulting store. -/
def submit (f : BookingForm) (now : DateTime) (store : List RawRow) :
    Except ValidationError (List RawRow) × List RawRow :=
  if FormOK f then
    (Except.ok (submitRows f now), (submitRows f now).foldl save_reservation store)
  else (Except.error ValidationError.invalid, store)

/-- The append loop of lines 220-231 with a fallible store: append the
rows one call at a time, stopping at the first failing call (the
exception of line 233 aborts the loop; already appended rows stay in
the store, nothing is rolled back).  Returns the resulting store,
whether every call succeeded, and the number of appends performed. -/
def runSubmitAppends (failsAt : ℕ → Bool) :
    List RawRow → List RawRow → ℕ → List RawRow × Bool × ℕ
  | [], store, _i => (store, true, 0)
  | r :: rest, store, i =>
    if failsAt i then (store, false, 0)
    else
      let out := runSubmitAppends failsAt rest (save_reservation store r) (i + 1)
      (out.1, out.2.1, out.2.2 + 1)

/-! ## Lookup by phone (page_my_reservations, lines 239-275) -/

/-- One logical booking reconstructed by the lookup: the grouping key
(reservation_time and tickets cells) and the span of its dates. -/
structure BookingSummary where
  rtime : Cell
  tcount : Cell
  start_date : CivilDate
  end_date : CivilDate
  deriving DecidableEq, Repr

/-- The groupby key of line 264: the reservation_time and tickets
cells of a row. -/
def rowKey (r : RawRow) : Cell × Cell :=
  (getCol r "reservation_time", getCol r "tickets")

/-- The filter of line 255: normalized stored phone equals the
normalized query. -/
def phoneMatches (q : String) (r : RawRow) : Bool :=
  decide (normalize_phone (getCol r "phone") = normalize_phone (Cell.str q))

/-- Earliest date of a group (min aggregation of line 265). -/
def minD : List CivilDate → CivilDate
  | [] => ⟨0, 0, 0⟩
  | d :: t => t.foldl (fun a b => if dateKey b < dateKey a then b else a) d

/-- Latest date of a group (max aggregation of line 265). -/
def maxD : List CivilDate → CivilDate
  | [] => ⟨0, 0, 0⟩
  | d :: t => t.foldl (fun a b => if dateKey a < dateKey b then b else a) d

/-- The parsed dates of the rows of one group. -/
def groupDates (k : Cell × Cell) (pairs : List ((Cell × Cell) × CivilDate)) :
    List CivilDate :=
  (pairs.filter (fun p => decide (p.1 = k))).map Prod.snd

/-- One aggregated group row: key fields plus min and max date. -/
def mkSummary (k : Cell × Cell) (ds : List CivilDate) : BookingSummary :=
  ⟨k.1, k.2, minD ds, maxD ds⟩

/-- Order of the final sort_values of line 266: by start_date. -/
def sumLE (a b : BookingSummary) : Prop :=
  dateKey a.start_date ≤ dateKey b.start_date

instance : DecidableRel sumLE := fun a b => by unfold sumLE; infer_instance

instance : IsTotal BookingSummary sumLE := ⟨fun a b => Nat.le_total _ _⟩

instance : IsTrans BookingSummary sumLE := ⟨fun _ _ _ hab hbc => Nat.le_trans hab hbc⟩

/-- The phone-matching rows paired with their grouping key and parsed
date: the data the groupby of line 264 operates on. -/
def phonePairs (rows : List RawRow) (q : String) :
    List ((Cell × Cell) × CivilDate) :=
  (rows.filter (phoneMatches q)).filterMap
    (fun r => (dateOf r).map (fun d => (rowKey r, d)))

/-- page_my_reservations lookup core (lines 246-266): filter the rows
to the normalized-phone matches, parse their dates (line 260 raises on
an unparsable date, modelled as none), group by the reservation_time
and tickets cells, aggregate each group to its date span, and sort the
summaries by start_date. -/
def find_by_phone (rows : List RawRow) (q : String) : Option (List BookingSummary) :=
  if (rows.filter (phoneMatches q)).all (fun r => (dateOf r).isSome) then
    some (List.insertionSort sumLE
      ((((phonePairs rows q).map Prod.fst).dedup).map
        (fun k => mkSummary k (groupDates k (phonePairs rows q)))))
  else none

/-! ## Shared lemmas -/

theorem foldl_save_reservation (rows : List RawRow) :
    ∀ store, rows.foldl save_reservation store = store ++ rows := by
  induction rows with
  | nil => intro store; simp
  | cons r rest ih =>
    intro store
    show rest.foldl save_reservation (save_reservation store r) = store ++ r :: rest
    rw [ih, save_reservation]
    simp

theorem runSubmitAppends_noFail (rows : List RawRow) :
    ∀ store i, runSubmitAppends (fun _ => false) rows store i =
      (store ++ rows, true, rows.length) := by
  induction rows with
  | nil => intro store i; simp [runSubmitAppends]
  | cons r rest ih =>
    intro store i
    show (let out := runSubmitAppends (fun _ => false) rest (save_reservation store r) (i + 1)
      (out.1, out.2.1, out.2.2 + 1)) = (store ++ r :: rest, true, (r :: rest).length)
    rw [ih]
    simp [save_reservation]

theorem validDate_october (d : ℕ) (h1 : 1 ≤ d) (h2 : d ≤ 31) :
    ValidDate ⟨2025, 10, d⟩ := by
  refine ⟨by norm_num, by norm_num, h1, ?_, by norm_num⟩
  show d ≤ daysInMonth 2025 10
  have e : daysInMonth 2025 10 = 31 := by decide
  omega

theorem formatDate_october_inj {a b : ℕ} (ha1 : 1 ≤ a) (ha2 : a ≤ 31)
    (hb1 : 1 ≤ b) (hb2 : b ≤ 31)
    (h : formatDate ⟨2025, 10, a⟩ = formatDate ⟨2025, 10, b⟩) : a = b := by
  have pa := parseDate_formatDate (validDate_october a ha1 ha2)
  have pb := parseDate_formatDate (validDate_october b hb1 hb2)
  rw [h, pb] at pa
  rw [Option.some_inj] at pa
  injection pa with h1 h2 h3
  exact h3.symm

/-! ## C1: the availability classifier -/

/-- C1 counterexample: the claim quantifies over arbitrary thresholds,
but with low = 10, mid = 5 and count 7 the code returns AMPLE while the
claimed equivalence (UNAVAILABLE iff count above mid) demands
UNAVAILABLE, since 7 is above mid = 5 yet AMPLE is not UNAVAILABLE. -/
theorem color_for_count_unordered_cex :
    color_for_count 10 5 7 = AMPLE ∧ AMPLE ≠ UNAVAILABLE ∧ (5 : ℤ) < 7 := by
  refine ⟨?_, by decide, by decide⟩
  rfl

/-- C1 (amended with ordered thresholds low < mid, as the boundary
sub-claims presuppose): for every count c at least 0, classification is
AMPLE iff c is at most low, NEARLY_FULL iff c is above low and at most
mid, UNAVAILABLE iff c is above mid; and at the boundaries low maps to
AMPLE, low + 1 and mid to NEARLY_FULL, mid + 1 to UNAVAILABLE. -/
theorem color_for_count_bands (c low mid : ℤ) (hc : 0 ≤ c) (hlm : low < mid) :
    (color_for_count low mid c = AMPLE ↔ c ≤ low) ∧
    (color_for_count low mid c = NEARLY_FULL ↔ low < c ∧ c ≤ mid) ∧
    (color_for_count low mid c = UNAVAILABLE ↔ mid < c) ∧
    color_for_count low mid low = AMPLE ∧
    color_for_count low mid (low + 1) = NEARLY_FULL ∧
    color_for_count low mid mid = NEARLY_FULL ∧
    color_for_count low mid (mid + 1) = UNAVAILABLE := by
  refine ⟨?_, ?_, ?_, ?_, ?_, ?_, ?_⟩
  · constructor
    · intro h
      by_contra hcl
      rw [color_for_count, if_neg hcl] at h
      split_ifs at h
      · exact absurd h (by decide)
      · exact absurd h (by decide)
    · intro hcl
      rw [color_for_count, if_pos hcl]
  · constructor
    · intro h
      by_cases h1 : c ≤ low
      · rw [color_for_count, if_pos h1] at h
        exact absurd h (by decide)
      · by_cases h2 : c ≤ mid
        · exact ⟨by omega, h2⟩
        · rw [color_for_count, if_neg h1, if_neg h2] at h
          exact absurd h (by decide)
    · intro ⟨h1, h2⟩
      rw [color_for_count, if_neg (by omega), if_pos h2]
  · constructor
    · intro h
      by_cases h1 : c ≤ low
      · rw [color_for_count, if_pos h1] at h
        exact absurd h (by decide)
      · by_cases h2 : c ≤ mid
        · rw [color_for_count, if_neg h1, if_pos h2] at h
          exact absurd h (by decide)
        · omega
    · intro h
      rw [color_for_count, if_neg (by omega), if_neg (by omega)]
  · rw [color_for_count, if_pos le_rfl]
  · rw [color_for_count, if_neg (by omega), if_pos (by omega)]
  · rw [color_for_count, if_neg (by omega), if_pos le_rfl]
  · rw [color_for_count, if_neg (by omega), if_neg (by omega)]

/-- Witness for C1 at the configured thresholds 22 and 32. -/
theorem color_for_count_bands_witness : color_for_count 22 32 33 = UNAVAILABLE :=
  ((color_for_count_bands 33 22 32 (by decide) (by decide)).2.2.1).mpr (by decide)

/-! ## C3: validation blocks every append -/

/-- C3: whenever any submission precondition fails (empty name, email
or phone; deposit not confirmed; end time not after start time; ticket
count below 1; date range unordered or outside the open-booking
window), the submission fails with ValidationError and the store is
returned unchanged: the guard runs before the append loop, so zero
rows are appended. -/
theorem submit_invalid_no_append (f : BookingForm) (now : DateTime)
    (store : List RawRow) (h : ¬ FormOK f) :
    submit f now store = (Except.error ValidationError.invalid, store) := by
  rw [submit, if_neg h]

/-- Witness for C3: a submission with the deposit box unchecked (all
other fields fine) errors and appends nothing. -/
theorem submit_invalid_no_append_witness :
    submit ⟨"kim", "k@x.io", "01011112222", 1, 2, 1, 540, 1080, false⟩
      ⟨⟨2025, 10, 1⟩, 12, 0, 0⟩ [] =
      (Except.error ValidationError.invalid, []) :=
  submit_invalid_no_append _ _ _ (by decide)

/-! ## C2: successful submission expands the range, one row per day -/

/-- C2: a submission passing all preconditions over the day range
startDay..endDay generates and persists exactly N = endDay - startDay + 1
rows, appended with exactly N append calls; row i is the fixed party row
at date startDay + i, so all rows agree on every field except date,
share the submission timestamp and the requested ticket count, and the
generated dates cover each day of the inclusive range exactly once. -/
theorem submit_valid_expansion (f : BookingForm) (now : DateTime)
    (store : List RawRow) (h : FormOK f) :
    (submit f now store).1 = Except.ok (submitRows f now) ∧
    (submit f now store).2 = store ++ submitRows f now ∧
    (submitRows f now).length = f.endDay - f.startDay + 1 ∧
    runSubmitAppends (fun _ => false) (submitRows f now) store 0 =
      (store ++ submitRows f now, true, f.endDay - f.startDay + 1) ∧
    (∀ i, i < f.endDay - f.startDay + 1 →
      (submitRows f now)[i]? = some (submitRow f now (f.startDay + i))) ∧
    (∀ r ∈ submitRows f now,
      getCol r "name" = Cell.str f.name ∧
      getCol r "email" = Cell.str f.email ∧
      getCol r "phone" = Cell.str f.phone ∧
      getCol r "tickets" = Cell.num f.tickets ∧
      getCol r "start_time" = Cell.str (formatHM f.startTime) ∧
      getCol r "end_time" = Cell.str (formatHM f.endTime) ∧
      getCol r "reservation_time" = Cell.str (formatDateTime now)) ∧
    (∀ d : ℕ,
      ((∃ r ∈ submitRows f now,
          getCol r "date" = Cell.str (formatDate ⟨2025, 10, d⟩)) ∧ 1 ≤ d ∧ d ≤ 31) ↔
        (f.startDay ≤ d ∧ d ≤ f.endDay)) ∧
    ((submitRows f now).map (fun r => getCol r "date")).Nodup := by
  have hsub : submit f now store =
      (Except.ok (submitRows f now), (submitRows f now).foldl save_reservation store) := by
    rw [submit, if_pos h]
  obtain ⟨hname, hemail, hphone, hdep, htime, htick, hs1, hse, he29⟩ := h
  refine ⟨?_, ?_, ?_, ?_, ?_, ?_, ?_, ?_⟩
  · rw [hsub]
  · rw [hsub]
    exact foldl_save_reservation _ _
  · simp [submitRows]
  · rw [runSubmitAppends_noFail]
    simp [submitRows]
  · intro i hi
    rw [submitRows, List.getElem?_map, List.getElem?_range hi]
    rfl
  · intro r hr
    rcases List.mem_map.mp hr with ⟨i, _, rfl⟩
    exact ⟨rfl, rfl, rfl, rfl, rfl, rfl, rfl⟩
  · intro d
    constructor
    · rintro ⟨⟨r, hr, hdate⟩, hd1, hd31⟩
      rcases List.mem_map.mp hr with ⟨i, hi, rfl⟩
      rw [List.mem_range] at hi
      have e : getCol (submitRow f now (f.startDay + i)) "date" =
          Cell.str (formatDate ⟨2025, 10, f.startDay + i⟩) := rfl
      rw [e, Cell.str.injEq] at hdate
      have := formatDate_october_inj (by omega) (by omega) hd1 hd31 hdate
      omega
    · rintro ⟨hds, hde⟩
      refine ⟨⟨submitRow f now d, ?_, rfl⟩, by omega, by omega⟩
      refine List.mem_map.mpr ⟨d - f.startDay, List.mem_range.mpr (by omega), ?_⟩
      have e : f.startDay + (d - f.startDay) = d := by omega
      rw [e]
  · rw [submitRows, List.map_map]
    refine List.Nodup.map_on ?_ (List.nodup_range _)
    intro i hi j hj hij
    rw [List.mem_range] at hi hj
    have ei : ((fun r => getCol r "date") ∘ fun i => submitRow f now (f.startDay + i)) i =
        Cell.str (formatDate ⟨2025, 10, f.startDay + i⟩) := rfl
    have ej : ((fun r => getCol r "date") ∘ fun i => submitRow f now (f.startDay + i)) j =
        Cell.str (formatDate ⟨2025, 10, f.startDay + j⟩) := rfl
    rw [ei, ej, Cell.str.injEq] at hij
    have := formatDate_october_inj (by omega) (by omega) (by omega) (by omega) hij
    omega

/-- Witness for C2: a 3-day submission generates exactly 3 rows. -/
theorem submit_valid_expansion_witness :
    (submitRows ⟨"kim", "k@x.io", "01011112222", 1, 3, 5, 540, 1080, true⟩
      ⟨⟨2025, 10, 1⟩, 12, 0, 0⟩).length = 3 :=
  (submit_valid_expansion ⟨"kim", "k@x.io", "01011112222", 1, 3, 5, 540, 1080, true⟩
    ⟨⟨2025, 10, 1⟩, 12, 0, 0⟩ [] (by decide)).2.2.1

/-! ## C8: a failing append mid-range leaves a partial booking -/

/-- C8: multi-day submission is not atomic.  Concretely: a valid 2-day
submission whose second append call fails leaves exactly the first
generated row persisted in the store, reports failure, performs one
append, and never appends the second row; nothing is rolled back. -/
theorem partial_append_persists :
    let f : BookingForm := ⟨"kim", "k@x.io", "01011112222", 1, 2, 5, 540, 1080, true⟩
    let now : DateTime := ⟨⟨2025, 10, 1⟩, 12, 0, 0⟩
    FormOK f ∧
    (submitRows f now).length = 2 ∧
    runSubmitAppends (fun i => i == 1) (submitRows f now) [] 0 =
      ([submitRow f now 1], false, 1) ∧
    submitRow f now 2 ≠ submitRow f now 1 := by
  refine ⟨by decide, rfl, rfl, fun h => ?_⟩
  have hdates := congrArg (fun r => getCol r "date") h
  have e2 : getCol (submitRow ⟨"kim", "k@x.io", "01011112222", 1, 2, 5, 540, 1080, true⟩
      ⟨⟨2025, 10, 1⟩, 12, 0, 0⟩ 2) "date" = Cell.str (formatDate ⟨2025, 10, 2⟩) := rfl
  have e1 : getCol (submitRow ⟨"kim", "k@x.io", "01011112222", 1, 2, 5, 540, 1080, true⟩
      ⟨⟨2025, 10, 1⟩, 12, 0, 0⟩ 1) "date" = Cell.str (formatDate ⟨2025, 10, 1⟩) := rfl
  simp only [e2, e1, Cell.str.injEq] at hdates
  have := formatDate_october_inj (by omega) (by omega) (by omega) (by omega) hdates
  omega

/-! ## C4: the tickets invariant of normalization -/

/-- C4 counterexample: normalize preserves a negative parseable tickets
value, so the claimed invariant (tickets at least 0 for every input)
fails: a raw row carrying the number -3 normalizes to tickets -3. -/
theorem normalize_negative_tickets_cex :
    (normalize ⟨⟨2025, 10, 5⟩, 12, 0, 0⟩ [[("tickets", Cell.num (-3))]]).map
      (fun r => getCol r "tickets") = [Cell.num (-3)] ∧ (-3 : ℤ) < 0 := by
  refine ⟨?_, by decide⟩
  rfl

/-- C4 (amended): every row produced by normalize carries as tickets
the coerced integer of its raw tickets cell, which is 0 when parsing
fails; hence tickets is at least 0 whenever every raw tickets value
coerces to a nonnegative integer (unparsable input becoming 0), but a
negative parseable value passes through. -/
theorem normalize_tickets_amended (now : DateTime) (rows : List RawRow) :
    (∀ row ∈ rows, toNumericInt (getCol row "tickets") = none →
      getCol (normalizeRow now row) "tickets" = Cell.num 0) ∧
    ((∀ row ∈ rows, 0 ≤ (toNumericInt (getCol row "tickets")).getD 0) →
      ∀ r ∈ normalize now rows, ∃ k : ℤ, getCol r "tickets" = Cell.num k ∧ 0 ≤ k) := by
  constructor
  · intro row _ h
    have e : getCol (normalizeRow now row) "tickets" =
        normCellTickets (getCol row "tickets") := rfl
    rw [e, normCellTickets, h]
    rfl
  · intro h r hr
    rcases List.mem_map.mp hr with ⟨row, hrow, rfl⟩
    refine ⟨(toNumericInt (getCol row "tickets")).getD 0, rfl, h row hrow⟩

/-- Witness for C4 (amended) on a one-row input with tickets "7". -/
theorem normalize_tickets_amended_witness :
    ∃ k : ℤ,
      getCol (normalizeRow ⟨⟨2025, 10, 5⟩, 12, 0, 0⟩ [("tickets", Cell.str "7")]) "tickets"
        = Cell.num k ∧ 0 ≤ k :=
  (normalize_tickets_amended ⟨⟨2025, 10, 5⟩, 12, 0, 0⟩
      [[("tickets", Cell.str "7")]]).2 (by decide) _ (List.mem_singleton.mpr rfl)

/-! ## C10: the canonical field set -/

/-- C10: every record produced by normalize has exactly the eight
canonical fields of COLUMNS, in header order (extra input fields are
dropped by the final column selection), and a field missing from the
input is read as the empty-string default. -/
theorem normalize_field_set (now : DateTime) (rows : List RawRow) :
    (∀ r ∈ normalize now rows, r.map Prod.fst = COLUMNS) ∧
    (∀ row : RawRow, row.find? (fun p => p.1 == "name") = none →
      ("name", Cell.str "") ∈ normalizeRow now row) := by
  constructor
  · intro r hr
    rcases List.mem_map.mp hr with ⟨row, _, rfl⟩
    rfl
  · intro row h
    have e : getCol row "name" = Cell.str "" := by rw [getCol, h]
    have : ("name", getCol row "name") ∈ normalizeRow now row :=
      List.mem_cons_self _ _
    rwa [e] at this

/-- Witness for C10 on a row holding only an unrecognized field. -/
theorem normalize_field_set_witness :
    (normalizeRow ⟨⟨2025, 10, 5⟩, 12, 0, 0⟩ [("junk", Cell.num 1)]).map Prod.fst
      = COLUMNS :=
  (normalize_field_set ⟨⟨2025, 10, 5⟩, 12, 0, 0⟩ [[("junk", Cell.num 1)]]).1 _
    (List.mem_singleton.mpr rfl)

/-! ## C6: phone comparison is digits-only -/

/-- C6: the stored phone and the query are both reduced to their digit
characters before comparison, so a row matches exactly when the
digit-only forms agree; a dashed query matches an undashed stored
number; and when nothing matches, the lookup returns the empty list
rather than an error. -/
theorem phone_digits_match (rows : List RawRow) (q : String) :
    (∀ c : Cell, normalize_phone c = String.mk ((cellStr c).data.filter isDigitChar)) ∧
    (∀ r : RawRow, phoneMatches q r = true ↔
      normalize_phone (getCol r "phone") = normalize_phone (Cell.str q)) ∧
    normalize_phone (Cell.str "010-1234-5678") = normalize_phone (Cell.str "01012345678") ∧
    ((∀ r ∈ rows, normalize_phone (getCol r "phone") ≠ normalize_phone (Cell.str q)) →
      find_by_phone rows q = some []) := by
  refine ⟨fun c => rfl, fun r => by rw [phoneMatches]; exact decide_eq_true_iff,
    by decide, ?_⟩
  intro h
  have hmine : rows.filter (phoneMatches q) = [] := by
    rw [List.filter_eq_nil]
    intro r hr
    rw [phoneMatches]
    simpa using h r hr
  simp [find_by_phone, phonePairs, hmine]

/-- Witness for C6: a store without the queried number yields the
empty result. -/
theorem phone_digits_match_witness :
    find_by_phone [[("phone", Cell.str "9998887777")]] "010-1234-5678" = some [] :=
  (phone_digits_match [[("phone", Cell.str "9998887777")]] "010-1234-5678").2.2.2
    (by decide)

/-! ## C7: the date aggregation -/

theorem counts_pairs_sum (d : CivilDate) (rows : List RawRow) :
    (((rows.filterMap (fun r => (dateOf r).map (fun d0 => (d0, ticketsOf r)))).filter
        (fun p => decide (p.1 = d))).map Prod.snd).sum =
      ((rows.filter (fun r => decide (dateOf r = some d))).map ticketsOf).sum := by
  induction rows with
  | nil => rfl
  | cons r rest ih =>
    rw [List.filterMap_cons, List.filter_cons]
    cases hdo : dateOf r with
    | none => simpa [hdo] using ih
    | some d0 =>
      by_cases hq : d0 = d
      · subst hq
        simpa [hdo, List.filter_cons] using ih
      · simpa [hdo, List.filter_cons, hq] using ih

theorem get_counts_eq (rows : List RawRow) :
    get_counts_by_date rows =
      (List.insertionSort cdLE (((rows.filterMap
          (fun r => (dateOf r).map (fun d => (d, ticketsOf r)))).map Prod.fst).dedup)).map
        (fun d => (d, (((rows.filterMap
          (fun r => (dateOf r).map (fun d0 => (d0, ticketsOf r)))).filter
            (fun p => decide (p.1 = d))).map Prod.snd).sum)) := by
  cases rows with
  | nil => rfl
  | cons r rest => rfl

/-- C7: counts_by_date maps exactly the parseable dates occurring in
the input (rows with unparsable or missing date are dropped) to the sum
of the coerced ticket values of the rows carrying that date; the empty
input yields the empty mapping rather than an error. -/
theorem counts_by_date_spec (rows : List RawRow) :
    get_counts_by_date [] = [] ∧
    (∀ d : CivilDate,
      d ∈ (get_counts_by_date rows).map Prod.fst ↔ ∃ r ∈ rows, dateOf r = some d) ∧
    (∀ d v, (d, v) ∈ get_counts_by_date rows →
      v = ((rows.filter (fun r => decide (dateOf r = some d))).map ticketsOf).sum) := by
  refine ⟨rfl, ?_, ?_⟩
  · intro d
    rw [get_counts_eq, List.map_map]
    have hid : (Prod.fst ∘ fun d => (d, (((rows.filterMap
        (fun r => (dateOf r).map (fun d0 => (d0, ticketsOf r)))).filter
          (fun p => decide (p.1 = d))).map Prod.snd).sum)) = (id : CivilDate → CivilDate) := rfl
    rw [hid, List.map_id]
    rw [(List.perm_insertionSort cdLE _).mem_iff, List.mem_dedup]
    constructor
    · intro hd
      rcases List.mem_map.mp hd with ⟨p, hp, rfl⟩
      rcases List.mem_filterMap.mp hp with ⟨r, hr, hf⟩
      rcases Option.map_eq_some'.mp hf with ⟨a, ha, hpa⟩
      refine ⟨r, hr, ?_⟩
      rw [ha]
      rw [← hpa]
    · rintro ⟨r, hr, hdr⟩
      refine List.mem_map.mpr ⟨(d, ticketsOf r), List.mem_filterMap.mpr ⟨r, hr, ?_⟩, rfl⟩
      rw [hdr]
      rfl
  · intro d v hdv
    rw [get_counts_eq] at hdv
    rcases List.mem_map.mp hdv with ⟨d0, _, heq⟩
    rw [Prod.mk.injEq] at heq
    obtain ⟨rfl, rfl⟩ := heq
    exact counts_pairs_sum d0 rows

/-- Witness for C7: two same-day bookings of 3 and 4 tickets and one
unparsable-date row aggregate to a 7 at that day. -/
theorem counts_by_date_spec_witness :
    (7 : ℤ) =
      ((([[("date", Cell.str "2025-10-01"), ("tickets", Cell.num 3)],
          [("date", Cell.str "2025-10-01"), ("tickets", Cell.num 4)],
          [("date", Cell.str "junk"), ("tickets", Cell.num 9)]] : List RawRow).filter
        (fun r => decide (dateOf r = some ⟨2025, 10, 1⟩))).map ticketsOf).sum :=
  (counts_by_date_spec
    [[("date", Cell.str "2025-10-01"), ("tickets", Cell.num 3)],
     [("date", Cell.str "2025-10-01"), ("tickets", Cell.num 4)],
     [("date", Cell.str "junk"), ("tickets", Cell.num 9)]]).2.2
    ⟨2025, 10, 1⟩ 7 (by decide)

/-! ## C9: normalization is idempotent -/

theorem normCellDate_idem (c : Cell) : normCellDate (normCellDate c) = normCellDate c := by
  cases hdc : parseDateCell c with
  | none =>
    have h1 : normCellDate c = Cell.nan := by rw [normCellDate, hdc]
    rw [h1]
    rfl
  | some d =>
    have h1 : normCellDate c = Cell.str (formatDate d) := by rw [normCellDate, hdc]
    have hv : ValidDate d := by
      cases c with
      | str s => exact parseDate_valid hdc
      | num n => exact absurd hdc (by simp [parseDateCell])
      | nan => exact absurd hdc (by simp [parseDateCell])
    have hp : parseDateCell (Cell.str (formatDate d)) = some d := parseDate_formatDate hv
    rw [h1, normCellDate, hp]

theorem normCellTickets_idem (c : Cell) :
    normCellTickets (normCellTickets c) = normCellTickets c := rfl

theorem normCellRT_idem (now₁ now₂ : DateTime) (c : Cell) (h : ValidDateTime now₁) :
    normCellRT now₂ (normCellRT now₁ c) = normCellRT now₁ c := by
  have hv : ValidDateTime ((parseDateTimeCell c).getD now₁) := by
    cases hpc : parseDateTimeCell c with
    | none => simpa using h
    | some t =>
      have hvt : ValidDateTime t := by
        cases c with
        | str s => exact parseDateTime_valid hpc
        | num n => exact absurd hpc (by simp [parseDateTimeCell])
        | nan => exact absurd hpc (by simp [parseDateTimeCell])
      simpa using hvt
  rw [normCellRT, normCellRT]
  have hp : parseDateTimeCell
      (Cell.str (formatDateTime ((parseDateTimeCell c).getD now₁))) =
        some ((parseDateTimeCell c).getD now₁) := parseDateTime_formatDateTime hv
  rw [hp]
  rfl

theorem normalizeRow_idem (now₁ now₂ : DateTime) (row : RawRow)
    (h : ValidDateTime now₁) :
    normalizeRow now₂ (normalizeRow now₁ row) = normalizeRow now₁ row := by
  have e : normalizeRow now₂ (normalizeRow now₁ row) =
      [("name", getCol row "name"),
       ("email", getCol row "email"),
       ("phone", getCol row "phone"),
       ("date", normCellDate (normCellDate (getCol row "date"))),
       ("tickets", normCellTickets (normCellTickets (getCol row "tickets"))),
       ("start_time", getCol row "start_time"),
       ("end_time", getCol row "end_time"),
       ("reservation_time",
         normCellRT now₂ (normCellRT now₁ (getCol row "reservation_time")))] := rfl
  rw [e, normCellDate_idem, normCellTickets_idem,
    normCellRT_idem now₁ now₂ (getCol row "reservation_time") h]
  rfl

/-- C9: normalize is idempotent.  Re-normalizing the output of
normalize returns it unchanged, for any wall-clock reading at the
second pass; the clock read at the first pass is a genuine timestamp
(as pd.Timestamp.now() always is). -/
theorem normalize_idempotent (now₁ now₂ : DateTime) (rows : List RawRow)
    (h : ValidDateTime now₁) :
    normalize now₂ (normalize now₁ rows) = normalize now₁ rows := by
  show (rows.map (normalizeRow now₁)).map (normalizeRow now₂) = rows.map (normalizeRow now₁)
  induction rows with
  | nil => rfl
  | cons r rest ih =>
    show normalizeRow now₂ (normalizeRow now₁ r) ::
        (rest.map (normalizeRow now₁)).map (normalizeRow now₂) =
      normalizeRow now₁ r :: rest.map (normalizeRow now₁)
    rw [normalizeRow_idem now₁ now₂ r h, ih]

/-! ## C5: grouping of a phone's rows into logical bookings -/

theorem foldl_minD_mem (t : List CivilDate) :
    ∀ d, t.foldl (fun a b => if dateKey b < dateKey a then b else a) d ∈ d :: t := by
  induction t with
  | nil => intro d; exact List.mem_singleton.mpr rfl
  | cons b t ih =>
    intro d
    show t.foldl (fun a b => if dateKey b < dateKey a then b else a)
      (if dateKey b < dateKey d then b else d) ∈ d :: b :: t
    rcases List.mem_cons.mp (ih (if dateKey b < dateKey d then b else d)) with hh | ht
    · rw [hh]
      split_ifs
      · exact List.mem_cons_of_mem d (List.mem_cons_self b t)
      · exact List.mem_cons_self d _
    · exact List.mem_cons_of_mem d (List.mem_cons_of_mem b ht)

theorem foldl_minD_le (t : List CivilDate) :
    ∀ d, ∀ x ∈ d :: t,
      dateKey (t.foldl (fun a b => if dateKey b < dateKey a then b else a) d) ≤
        dateKey x := by
  induction t with
  | nil =>
    intro d x hx
    rw [List.mem_singleton] at hx
    rw [hx]
    exact le_rfl
  | cons b t ih =>
    intro d x hx
    show dateKey (t.foldl (fun a b => if dateKey b < dateKey a then b else a)
      (if dateKey b < dateKey d then b else d)) ≤ dateKey x
    have hhead := ih (if dateKey b < dateKey d then b else d) _
      (List.mem_cons_self _ _)
    have hfd : dateKey (if dateKey b < dateKey d then b else d) ≤ dateKey d := by
      split_ifs with hc
      · omega
      · omega
    have hfb : dateKey (if dateKey b < dateKey d then b else d) ≤ dateKey b := by
      split_ifs with hc
      · omega
      · omega
    rcases List.mem_cons.mp hx with rfl | hx2
    · exact le_trans hhead hfd
    · rcases List.mem_cons.mp hx2 with rfl | hx3
      · exact le_trans hhead hfb
      · exact ih _ x (List.mem_cons_of_mem _ hx3)

theorem foldl_maxD_mem (t : List CivilDate) :
    ∀ d, t.foldl (fun a b => if dateKey a < dateKey b then b else a) d ∈ d :: t := by
  induction t with
  | nil => intro d; exact List.mem_singleton.mpr rfl
  | cons b t ih =>
    intro d
    show t.foldl (fun a b => if dateKey a < dateKey b then b else a)
      (if dateKey d < dateKey b then b else d) ∈ d :: b :: t
    rcases List.mem_cons.mp (ih (if dateKey d < dateKey b then b else d)) with hh | ht
    · rw [hh]
      split_ifs
      · exact List.mem_cons_of_mem d (List.mem_cons_self b t)
      · exact List.mem_cons_self d _
    · exact List.mem_cons_of_mem d (List.mem_cons_of_mem b ht)

theorem foldl_maxD_ge (t : List CivilDate) :
    ∀ d, ∀ x ∈ d :: t,
      dateKey x ≤
        dateKey (t.foldl (fun a b => if dateKey a < dateKey b then b else a) d) := by
  induction t with
  | nil =>
    intro d x hx
    rw [List.mem_singleton] at hx
    rw [hx]
    exact le_rfl
  | cons b t ih =>
    intro d x hx
    show dateKey x ≤ dateKey (t.foldl (fun a b => if dateKey a < dateKey b then b else a)
      (if dateKey d < dateKey b then b else d))
    have hhead := ih (if dateKey d < dateKey b then b else d) _
      (List.mem_cons_self _ _)
    have hfd : dateKey d ≤ dateKey (if dateKey d < dateKey b then b else d) := by
      split_ifs with hc
      · omega
      · omega
    have hfb : dateKey b ≤ dateKey (if dateKey d < dateKey b then b else d) := by
      split_ifs with hc
      · omega
      · omega
    rcases List.mem_cons.mp hx with rfl | hx2
    · exact le_trans hfd hhead
    · rcases List.mem_cons.mp hx2 with rfl | hx3
      · exact le_trans hfb hhead
      · exact ih _ x (List.mem_cons_of_mem _ hx3)

theorem minD_mem {ds : List CivilDate} (h : ds ≠ []) : minD ds ∈ ds := by
  cases ds with
  | nil => exact absurd rfl h
  | cons d t => exact foldl_minD_mem t d

theorem minD_le {ds : List CivilDate} : ∀ x ∈ ds, dateKey (minD ds) ≤ dateKey x := by
  cases ds with
  | nil => intro x hx; exact absurd hx (List.not_mem_nil x)
  | cons d t => exact foldl_minD_le t d

theorem maxD_mem {ds : List CivilDate} (h : ds ≠ []) : maxD ds ∈ ds := by
  cases ds with
  | nil => exact absurd rfl h
  | cons d t => exact foldl_maxD_mem t d

theorem maxD_ge {ds : List CivilDate} : ∀ x ∈ ds, dateKey x ≤ dateKey (maxD ds) := by
  cases ds with
  | nil => intro x hx; exact absurd hx (List.not_mem_nil x)
  | cons d t => exact foldl_maxD_ge t d

/-- C5: when the lookup succeeds, it emits exactly one summary per
distinct (reservation_time, tickets) pair among the phone-matching
rows: every matching row lands in one group, every group key is
represented by exactly one summary, each summary spans its group from
the minimum date (start_date) to the maximum date (end_date), and the
summaries come sorted by start_date ascending. -/
theorem find_by_phone_groups (rows : List RawRow) (q : String)
    (out : List BookingSummary) (h : find_by_phone rows q = some out) :
    List.Sorted sumLE out ∧
    (out.map (fun s => (s.rtime, s.tcount))).Nodup ∧
    (∀ r ∈ rows.filter (phoneMatches q),
      ∃ d, dateOf r = some d ∧ (rowKey r, d) ∈ phonePairs rows q) ∧
    (∀ k ∈ (phonePairs rows q).map Prod.fst, ∃ s ∈ out, (s.rtime, s.tcount) = k) ∧
    (∀ s ∈ out,
      (s.rtime, s.tcount) ∈ (phonePairs rows q).map Prod.fst ∧
      s.start_date ∈ groupDates (s.rtime, s.tcount) (phonePairs rows q) ∧
      s.end_date ∈ groupDates (s.rtime, s.tcount) (phonePairs rows q) ∧
      (∀ d ∈ groupDates (s.rtime, s.tcount) (phonePairs rows q),
        dateKey s.start_date ≤ dateKey d ∧ dateKey d ≤ dateKey s.end_date)) := by
  rw [find_by_phone] at h
  split at h
  case isFalse => exact absurd h (by simp)
  case isTrue hall =>
    rw [Option.some_inj] at h
    subst h
    refine ⟨List.sorted_insertionSort sumLE _, ?_, ?_, ?_, ?_⟩
    · have hperm := (List.perm_insertionSort sumLE
        ((((phonePairs rows q).map Prod.fst).dedup).map
          (fun k => mkSummary k (groupDates k (phonePairs rows q))))).map
        (fun s => (s.rtime, s.tcount))
      have hkm : ((((phonePairs rows q).map Prod.fst).dedup).map
          (fun k => mkSummary k (groupDates k (phonePairs rows q)))).map
            (fun s => (s.rtime, s.tcount)) =
          ((phonePairs rows q).map Prod.fst).dedup := by
        rw [List.map_map]
        have hcomp : ((fun s => (s.rtime, s.tcount)) ∘
            fun k => mkSummary k (groupDates k (phonePairs rows q))) =
              (id : Cell × Cell → Cell × Cell) := rfl
        rw [hcomp, List.map_id]
      rw [hkm] at hperm
      exact hperm.nodup_iff.mpr (List.nodup_dedup _)
    · intro r hr
      have hsome : (dateOf r).isSome := List.all_eq_true.mp hall r hr
      rcases Option.isSome_iff_exists.mp hsome with ⟨d, hd⟩
      refine ⟨d, hd, List.mem_filterMap.mpr ⟨r, hr, ?_⟩⟩
      rw [hd]
      rfl
    · intro k hk
      refine ⟨mkSummary k (groupDates k (phonePairs rows q)), ?_, rfl⟩
      exact ((List.perm_insertionSort sumLE _).mem_iff).mpr
        (List.mem_map.mpr ⟨k, List.mem_dedup.mpr hk, rfl⟩)
    · intro s hs
      have hs2 := ((List.perm_insertionSort sumLE _).mem_iff).mp hs
      rcases List.mem_map.mp hs2 with ⟨k, hk, rfl⟩
      have hkP : k ∈ (phonePairs rows q).map Prod.fst := List.mem_dedup.mp hk
      rcases List.mem_map.mp hkP with ⟨p, hp, hpk⟩
      have hpg : p.2 ∈ groupDates k (phonePairs rows q) := by
        rw [groupDates]
        refine List.mem_map.mpr ⟨p, List.mem_filter.mpr ⟨hp, ?_⟩, rfl⟩
        exact decide_eq_true hpk
      have hne : groupDates k (phonePairs rows q) ≠ [] := List.ne_nil_of_mem hpg
      refine ⟨hkP, minD_mem hne, maxD_mem hne, fun d hd => ⟨minD_le d hd, maxD_ge d hd⟩⟩

/-- Witness for C5 on a two-row store holding one 2-day booking. -/
theorem find_by_phone_groups_witness :
    List.Sorted sumLE
      [⟨Cell.str "2025-10-01 12:00:00", Cell.num 5, ⟨2025, 10, 1⟩, ⟨2025, 10, 2⟩⟩] :=
  (find_by_phone_groups
    [[("phone", Cell.str "01012345678"), ("date", Cell.str "2025-10-01"),
      ("reservation_time", Cell.str "2025-10-01 12:00:00"), ("tickets", Cell.num 5)],
     [("phone", Cell.str "01012345678"), ("date", Cell.str "2025-10-02"),
      ("reservation_time", Cell.str "2025-10-01 12:00:00"), ("tickets", Cell.num 5)]]
    "010-1234-5678"
    [⟨Cell.str "2025-10-01 12:00:00", Cell.num 5, ⟨2025, 10, 1⟩, ⟨2025, 10, 2⟩⟩]
    (by rfl)).1

/-- Witness for C9 on a two-field row and an October 2025 clock. -/
theorem normalize_idempotent_witness :
    normalize ⟨⟨2025, 10, 2⟩, 8, 30, 0⟩
        (normalize ⟨⟨2025, 10, 1⟩, 12, 0, 0⟩
          [[("name", Cell.str "kim"), ("date", Cell.str "2025-10-03")]]) =
      normalize ⟨⟨2025, 10, 1⟩, 12, 0, 0⟩
        [[("name", Cell.str "kim"), ("date", Cell.str "2025-10-03")]] :=
  normalize_idempotent ⟨⟨2025, 10, 1⟩, 12, 0, 0⟩ ⟨⟨2025, 10, 2⟩, 8, 30, 0⟩
    [[("name", Cell.str "kim"), ("date", Cell.str "2025-10-03")]] (by decide)

end B200
